import Mathlib

/-!
Verification of the audio-activity-gated speaker controller in
`src/contexts/audio-monitoring-context.tsx`.

The development shallowly embeds the pure decision logic of
`AudioMonitoringProvider`: the configuration record, the activation
state machine driven by level samples and wall-clock timers, the
volume-ramp stepping loop, the `controlling` mutual-exclusion guard,
the bounded activity log, and the CSV export.  Asynchronous control
sequences are modelled as the ordered list of calls they issue; the
event loop is modelled by processing samples and due timer callbacks
in wall-clock order.  JavaScript numbers that only ever hold integers
(levels, hours, durations in ms) are embedded as `Nat`; the ramp
interpolation, which genuinely uses fractional values, is embedded
over `Rat`.
-/

namespace AlgoApp

/-- Ramp-related fields of the monitoring configuration, as held by the
provider's state hooks (`rampEnabled`, `rampDuration` (seconds),
`dayNightMode`, `dayStartHour`, `dayEndHour`, `nightRampDuration`
(seconds)). -/
structure RampConfig where
  rampEnabled : Bool
  rampDuration : Nat
  dayNightMode : Bool
  dayStartHour : Nat
  dayEndHour : Nat
  nightRampDuration : Nat
deriving Repr, DecidableEq

/-- Embeds `isDaytime` (source lines 634-638): the current hour is in
`[dayStartHour, dayEndHour)`. -/
def isDaytime (cfg : RampConfig) (currentHour : Nat) : Bool :=
  decide (cfg.dayStartHour ≤ currentHour) && decide (currentHour < cfg.dayEndHour)

/-- Embeds `getEffectiveRampDuration` (source lines 641-662), in
milliseconds; `currentHour` stands for `new Date().getHours()`. -/
def getEffectiveRampDuration (cfg : RampConfig) (currentHour : Nat) : Nat :=
  if !cfg.rampEnabled then 0
  else if cfg.dayNightMode then
    if isDaytime cfg currentHour then 0
    else cfg.nightRampDuration * 1000
  else cfg.rampDuration * 1000

/-- The effective ramp duration as the specification words it: 0 when the
ramp is disabled; with day/night mode, 0 during `[dayStartHour, dayEndHour)`
and the night ramp duration otherwise; the manual ramp duration otherwise. -/
def specEffectiveRampDuration (cfg : RampConfig) (currentHour : Nat) : Nat :=
  if cfg.rampEnabled = false then 0
  else if cfg.dayNightMode then
    if cfg.dayStartHour ≤ currentHour ∧ currentHour < cfg.dayEndHour then 0
    else cfg.nightRampDuration * 1000
  else cfg.rampDuration * 1000

/-- Claim C7: `getEffectiveRampDuration` returns 0 whenever `rampEnabled`
is false; with day/night mode enabled it returns 0 for hours in
`[dayStartHour, dayEndHour)` and `nightRampDuration * 1000` otherwise;
without day/night mode it returns `rampDuration * 1000`; and in the
concrete scenario `dayStartHour = 6`, `dayEndHour = 18` the value at
hour 10 is 0 and at hour 22 is `nightRampDuration * 1000`. -/
theorem effectiveRampDuration_spec :
    (∀ cfg h, getEffectiveRampDuration cfg h = specEffectiveRampDuration cfg h) ∧
    (∀ n h, getEffectiveRampDuration ⟨true, 15, true, 6, 18, n⟩ h =
      if 6 ≤ h ∧ h < 18 then 0 else n * 1000) ∧
    (∀ n, getEffectiveRampDuration ⟨true, 15, true, 6, 18, n⟩ 10 = 0) ∧
    (∀ n, getEffectiveRampDuration ⟨true, 15, true, 6, 18, n⟩ 22 = n * 1000) := by
  refine ⟨fun cfg h => ?_, fun n h => ?_, fun n => ?_, fun n => ?_⟩
  · simp only [getEffectiveRampDuration, specEffectiveRampDuration, isDaytime,
      Bool.not_eq_true', decide_eq_true_eq, Bool.and_eq_true]
  · by_cases h1 : 6 ≤ h <;> by_cases h2 : h < 18 <;>
      simp [getEffectiveRampDuration, isDaytime, h1, h2]
  · simp [getEffectiveRampDuration, isDaytime]
  · simp [getEffectiveRampDuration, isDaytime]

/-! ## Activity log and CSV export -/

/-- The `type` field of an `AudioLogEntry` (source lines 12-21). -/
inductive LogType
  | audioDetectedT
  | audioSilentT
  | speakersEnabledT
  | speakersDisabledT
  | volumeChangeT
deriving Repr, DecidableEq

/-- The string each `LogType` interpolates to in the CSV template
(the literal union values of the source's `type` field). -/
def LogType.render : LogType → String
  | audioDetectedT => "audio_detected"
  | audioSilentT => "audio_silent"
  | speakersEnabledT => "speakers_enabled"
  | speakersDisabledT => "speakers_disabled"
  | volumeChangeT => "volume_change"

/-- Embeds `AudioLogEntry` (source lines 12-21).  Numeric fields only ever
hold integer values (the meter rounds, thresholds and volumes are
integers), so they are embedded as `Nat`. -/
structure AudioLogEntry where
  timestamp : String
  type : LogType
  audioLevel : Option Nat := none
  audioThreshold : Option Nat := none
  speakersEnabled : Option Bool := none
  volume : Option Nat := none
  message : String
  recordingUrl : Option String := none
deriving Repr, DecidableEq

/-- Embeds the list update inside `addLog` (source lines 242-249): append
the new entry, then keep only the last 500 entries (`slice(-500)`) when the
length exceeds 500. -/
def addLog (logs : List AudioLogEntry) (e : AudioLogEntry) : List AudioLogEntry :=
  let newLogs := logs ++ [e]
  if 500 < newLogs.length then newLogs.drop (newLogs.length - 500) else newLogs

/-- Claim C8: the log is bounded by 500 entries: appending to a 500-entry
log drops exactly the oldest entry and keeps the remaining 499 plus the new
entry in order; appending to a shorter log removes nothing; and the bound
500 is preserved by every append. -/
theorem addLog_fifo_bound (logs : List AudioLogEntry) (e : AudioLogEntry) :
    (logs.length = 500 →
      addLog logs e = logs.drop 1 ++ [e] ∧ (addLog logs e).length = 500) ∧
    (logs.length < 500 → addLog logs e = logs ++ [e]) ∧
    (logs.length ≤ 500 → (addLog logs e).length ≤ 500) := by
  refine ⟨fun h500 => ?_, fun hlt => ?_, fun hle => ?_⟩
  · have hlen : (logs ++ [e]).length = 501 := by simp [h500]
    have hdrop : (logs ++ [e]).drop 1 = logs.drop 1 ++ [e] :=
      List.drop_append_of_le_length (by omega)
    constructor
    · simp only [addLog, hlen]
      norm_num [hdrop]
    · simp [addLog, hlen, h500]
  · simp only [addLog, List.length_append, List.length_singleton]
    have : ¬ 500 < logs.length + 1 := by omega
    simp [this]
  · have hl : (logs ++ [e]).length = logs.length + 1 := by simp
    by_cases h : 500 < (logs ++ [e]).length
    · simp only [addLog, h, if_true]
      simp only [List.length_drop]
      omega
    · simp only [addLog, h, if_false]
      omega

/-- A concrete log entry used to instantiate hypotheses of the log
theorems. -/
def sampleEntry : AudioLogEntry :=
  { timestamp := "2026-01-01T00:00:00.000Z", type := .audioDetectedT,
    message := "Monitoring started with threshold: 5%" }

/-- Witness for claim C8 at a concrete 500-entry log. -/
theorem addLog_fifo_bound_witness :
    (List.replicate 500 sampleEntry).length = 500 ∧
    addLog (List.replicate 500 sampleEntry) sampleEntry =
      (List.replicate 500 sampleEntry).drop 1 ++ [sampleEntry] :=
  ⟨List.length_replicate 500 sampleEntry,
   ((addLog_fifo_bound (List.replicate 500 sampleEntry) sampleEntry).1
     (List.length_replicate 500 sampleEntry)).1⟩

/-- Renders an optional numeric field the way the template literal
`${x ?? ''}` does: the decimal numeral, or the empty string when absent. -/
def renderOptNat : Option Nat → String
  | none => ""
  | some n => toString n

/-- Renders an optional boolean field the way `${x ?? ''}` does. -/
def renderOptBool : Option Bool → String
  | none => ""
  | some true => "true"
  | some false => "false"

/-- The seven column values of one CSV data row, in the source's column
order (line 990): rendered timestamp, type, audio level, threshold,
speakers flag, volume, message.  `fmt` stands for
`ts => new Date(ts).toLocaleString()`, which the embedding keeps
abstract. -/
def csvFields (fmt : String → String) (e : AudioLogEntry) : List String :=
  [fmt e.timestamp, e.type.render, renderOptNat e.audioLevel,
   renderOptNat e.audioThreshold, renderOptBool e.speakersEnabled,
   renderOptNat e.volume, e.message]

/-- Embeds one data row of `exportLogs` (source line 990): the template
string interpolates every field between literal double quotes with literal
comma separators and no escaping of the field contents. -/
def csvRow (fmt : String → String) (e : AudioLogEntry) : String :=
  "\"" ++ fmt e.timestamp ++ "\",\"" ++ e.type.render ++ "\",\"" ++
    renderOptNat e.audioLevel ++ "\",\"" ++ renderOptNat e.audioThreshold ++
    "\",\"" ++ renderOptBool e.speakersEnabled ++ "\",\"" ++
    renderOptNat e.volume ++ "\",\"" ++ e.message ++ "\""

/-- The header line of the export, with its trailing newline (source line
987). -/
def csvHeader : String := "Timestamp,Type,Audio Level,Threshold,Speakers,Volume,Message\n"

/-- Embeds `exportLogs` (source lines 986-994): the header plus the data
rows joined with newlines, one row per entry, in insertion order. -/
def exportLogs (fmt : String → String) (logs : List AudioLogEntry) : String :=
  csvHeader ++ String.intercalate "\n" (logs.map (csvRow fmt))

/-- One CSV row as the specification words it: the seven field values, each
individually enclosed in double quotes, joined by commas. -/
def specCsvRow (fmt : String → String) (e : AudioLogEntry) : String :=
  String.intercalate "," ((csvFields fmt e).map (fun f => "\"" ++ f ++ "\""))

theorem string_data_append (s t : String) : (s ++ t).data = s.data ++ t.data := rfl

theorem intercalate_go_cons (s acc a : String) (l : List String) :
    String.intercalate.go acc s (a :: l) = String.intercalate.go (acc ++ s ++ a) s l := rfl

theorem intercalate_go_nil (s a : String) : String.intercalate.go a s [] = a := rfl

theorem intercalate_cons (s a : String) (l : List String) :
    String.intercalate s (a :: l) = String.intercalate.go a s l := rfl

/-- Each data row of the export is exactly the specification's row shape:
seven individually quoted fields joined by commas. -/
theorem csvRow_eq_specCsvRow (fmt : String → String) (e : AudioLogEntry) :
    csvRow fmt e = specCsvRow fmt e := by
  apply String.ext
  simp [csvRow, specCsvRow, csvFields, intercalate_cons, intercalate_go_cons,
    intercalate_go_nil, string_data_append]

/-- Claim C9: `exportLogs` produces exactly the header line followed by one
data row per entry, newline separated, in original insertion order, each of
the seven field values individually enclosed in double quotes. -/
theorem exportLogs_csv_shape (fmt : String → String) (logs : List AudioLogEntry) :
    exportLogs fmt logs =
      csvHeader ++ String.intercalate "\n" (logs.map (specCsvRow fmt)) ∧
    (logs.map (specCsvRow fmt)).length = logs.length ∧
    (∀ i, (hi : i < logs.length) →
      (logs.map (specCsvRow fmt)).get ⟨i, by simpa using hi⟩ =
        specCsvRow fmt (logs.get ⟨i, hi⟩)) ∧
    exportLogs fmt [] = csvHeader := by
  refine ⟨?_, by simp, fun i hi => by simp, by simp [exportLogs, String.intercalate]⟩
  simp only [exportLogs]
  congr 1
  congr 1
  exact List.map_congr_left fun e _ => csvRow_eq_specCsvRow fmt e

/-- Witness for claim C9 at a concrete one-entry log. -/
theorem exportLogs_csv_shape_witness :
    (0 : Nat) < [sampleEntry].length ∧
    ([sampleEntry].map (specCsvRow id)).get ⟨0, by simp⟩ =
      specCsvRow id ([sampleEntry].get ⟨0, by simp⟩) :=
  ⟨by simp, (exportLogs_csv_shape id [sampleEntry]).2.2.1 0 (by simp)⟩

/-- Reads the body of a double-quoted field assuming no escaping: returns
the field contents up to the next double quote together with the remaining
input after that quote. -/
def readQuoted : List Char → Option (List Char × List Char)
  | [] => none
  | c :: cs =>
    if c = '"' then some ([], cs)
    else (readQuoted cs).map (fun p => (c :: p.1, p.2))

/-- Parses an entire row as a nonempty comma-separated sequence of
double-quoted fields with no escape mechanism; `none` when the row is not
of that shape.  The first argument is recursion fuel. -/
def parseQuotedRowAux : Nat → List Char → Option (List (List Char))
  | 0, _ => none
  | n + 1, l =>
    match l with
    | '"' :: cs =>
      match readQuoted cs with
      | none => none
      | some (f, rest) =>
        match rest with
        | [] => some [f]
        | ',' :: more => (parseQuotedRowAux n more).map (f :: ·)
        | _ => none
    | _ => none

/-- Parses a row as comma-separated double-quoted fields (fuel fixed large
enough that it never runs out on the given input). -/
def parseQuotedRow (l : List Char) : Option (List (List Char)) :=
  parseQuotedRowAux (l.length + 1) l

/-- A log entry whose message itself contains double quotes and commas, as
a user-visible message legitimately may. -/
def breakingEntry : AudioLogEntry :=
  { timestamp := "t", type := .speakersDisabledT, message := "x\",\"y" }

/-- Claim C10: the export escapes nothing: every data row is the literal
concatenation of the seven field texts, each wrapped in one pair of double
quotes and separated by commas (absent optional fields rendering as empty
quoted strings), and consequently the row produced for an entry whose
message contains a double quote and a comma parses back into eight quoted
fields, not seven. -/
theorem exportLogs_no_escaping :
    (∀ fmt e, csvRow fmt e =
      String.intercalate "," ((csvFields fmt e).map (fun f => "\"" ++ f ++ "\""))) ∧
    (∀ fmt e, csvFields fmt e = [fmt e.timestamp, e.type.render,
      renderOptNat e.audioLevel, renderOptNat e.audioThreshold,
      renderOptBool e.speakersEnabled, renderOptNat e.volume, e.message]) ∧
    (parseQuotedRow (csvRow (fun t => t) breakingEntry).data).map List.length =
      some 8 ∧
    (parseQuotedRow (csvRow (fun t => t) breakingEntry).data).map List.length ≠
      some 7 := by
  refine ⟨fun fmt e => csvRow_eq_specCsvRow fmt e, fun fmt e => rfl, ?_, ?_⟩ <;> decide

/-! ## Restoring persisted configuration (localStorage effect) -/

/-- Value of a maximal run of leading decimal digits; `none` when the run
is empty. -/
def parseLeadingDigits (cs : List Char) : Option Nat :=
  let ds := cs.takeWhile Char.isDigit
  if ds.isEmpty then none
  else some (ds.foldl (fun acc c => acc * 10 + (c.toNat - '0'.toNat)) 0)

/-- Embeds JavaScript `parseInt(s)` on the decimal strings this app
persists: leading whitespace is skipped, an optional sign is read, then a
maximal run of decimal digits; the result is `none` (JavaScript `NaN`)
when no digit is found.  (Radix prefixes such as `0x` are not modelled;
the app only ever persists decimal `toString()` output.) -/
def jsParseInt (s : String) : Option Int :=
  let cs := s.data.dropWhile (fun c => c = ' ' || c = '\t' || c = '\n' || c = '\r')
  match cs with
  | '-' :: rest => (parseLeadingDigits rest).map (fun n => -(n : Int))
  | '+' :: rest => (parseLeadingDigits rest).map (fun n => (n : Int))
  | _ => (parseLeadingDigits cs).map (fun n => (n : Int))

/-- Embeds one numeric-field branch of the restore effect (source lines
415-447), e.g. `if (savedTargetVolume) setTargetVolumeState(parseInt(savedTargetVolume))`:
the compiled-in default survives only when the stored value is absent
(`null`) or the empty string (the only falsy string); any other stored
string is handed to `parseInt`.  `none` in the result models `NaN`. -/
def restoreNumField (saved : Option String) (dflt : Int) : Option Int :=
  match saved with
  | none => some dflt
  | some s => if s.isEmpty then some dflt else jsParseInt s

/-- Embeds one boolean-field branch of the restore effect (source lines
424-426), e.g. `if (savedRampEnabled !== null) setRampEnabledState(savedRampEnabled === 'true')`. -/
def restoreBoolField (saved : Option String) (dflt : Bool) : Bool :=
  match saved with
  | none => dflt
  | some s => s = "true"

/-- Counterexample to claim C6: the persisted string `"abc"` under a
numeric key is truthy, so the restore effect stores `parseInt("abc")`,
which is `NaN` — the field neither keeps its default (100) nor receives a
valid number; likewise a malformed boolean entry forces `false` even when
the default is `true`. -/
theorem restore_malformed_counterexample :
    restoreNumField (some "abc") 100 = none ∧
    restoreNumField (some "abc") 100 ≠ some 100 ∧
    restoreBoolField (some "xyz") true = false := by
  refine ⟨?_, ?_, ?_⟩ <;> decide

/-- Claim C6 as amended: restoring falls back to the compiled-in default
exactly when the persisted entry is absent or the empty string; every
other persisted string is parsed (`parseInt` for numeric fields, equality
with `"true"` for booleans), so a malformed non-empty entry can set a
numeric field to `NaN` and a boolean field to `false`. -/
theorem restore_default_only_for_absent (d : Int) (b : Bool) :
    restoreNumField none d = some d ∧
    restoreNumField (some "") d = some d ∧
    (∀ s : String, ¬s.isEmpty → restoreNumField (some s) d = jsParseInt s) ∧
    restoreBoolField none b = b ∧
    (∀ s : String, restoreBoolField (some s) b = decide (s = "true")) := by
  refine ⟨rfl, rfl, fun s hs => ?_, rfl, fun s => rfl⟩
  simp [restoreNumField, hs]

/-- Witness for the amended claim C6 at the concrete persisted value
`"42"`. -/
theorem restore_default_only_for_absent_witness :
    ¬("42" : String).isEmpty ∧ restoreNumField (some "42") 100 = jsParseInt "42" :=
  ⟨by decide, (restore_default_only_for_absent 100 true).2.2.1 "42" (by decide)⟩

/-! ## Volume ramp engine -/

/-- State of the 500 ms interval installed by `startVolumeRamp`:
`currentVolumeRef.current`, the captured `targetVolume` and the captured
`volumeIncrement`. -/
structure RampRun where
  current : ℚ
  target : ℚ
  increment : ℚ
deriving Repr, DecidableEq

/-- Embeds one firing of the interval callback (source lines 691-715): add
the increment; when ramping up and the target is reached (or down and
reached from above), issue exactly the target volume and clear the
interval; otherwise issue the interpolated volume and keep going.  Returns
the argument of this tick's `setDevicesVolume` call and the continuation
(`none` once the interval cleared itself). -/
def rampTick (r : RampRun) : ℚ × Option RampRun :=
  let cur := r.current + r.increment
  if 0 < r.increment ∧ r.target ≤ cur then (r.target, none)
  else if r.increment < 0 ∧ cur ≤ r.target then (r.target, none)
  else (cur, some ⟨cur, r.target, r.increment⟩)

/-- Embeds `startVolumeRamp` (source lines 665-716): returns the
immediately issued `setDevicesVolume` calls and the interval state it
installs.  Duration 0 issues the single target call and installs nothing;
otherwise the initial call carries the start volume and the interval
starts with increment `(targetVolume - startFrom) / (duration / 500)`. -/
def startVolumeRamp (startFrom targetVolume effectiveRampDuration : ℚ) :
    List ℚ × Option RampRun :=
  if effectiveRampDuration = 0 then ([targetVolume], none)
  else
    let stepInterval : ℚ := 500
    let steps := effectiveRampDuration / stepInterval
    let volumeIncrement := (targetVolume - startFrom) / steps
    ([startFrom], some ⟨startFrom, targetVolume, volumeIncrement⟩)

/-- Runs at most `n` firings of the interval, collecting the issued volume
calls; the second component is `none` once the interval cleared itself
within the allotted firings. -/
def rampRunSteps : Nat → RampRun → List ℚ × Option RampRun
  | 0, r => ([], some r)
  | n + 1, r =>
    match rampTick r with
    | (v, none) => ([v], none)
    | (v, some rr) =>
      let rest := rampRunSteps n rr
      (v :: rest.1, rest.2)

theorem rampRunSteps_succ (n : Nat) (r : RampRun) :
    rampRunSteps (n + 1) r =
      match rampTick r with
      | (v, none) => ([v], none)
      | (v, some rr) => (v :: (rampRunSteps n rr).1, (rampRunSteps n rr).2) := rfl

theorem getLast?_cons_ne_nil {α : Type} (a : α) (l : List α) (h : l ≠ []) :
    (a :: l).getLast? = l.getLast? := by
  cases l with
  | nil => exact absurd rfl h
  | cons b t => exact List.getLast?_cons_cons ..

theorem dropLast_cons_ne_nil {α : Type} (a : α) (l : List α) (h : l ≠ []) :
    (a :: l).dropLast = a :: l.dropLast := by
  cases l with
  | nil => exact absurd rfl h
  | cons b t => exact List.dropLast_cons₂ ..

/-- With a zero increment neither stop branch can ever fire: the interval
survives any number of firings. -/
theorem rampRunSteps_zero_increment (n : Nat) :
    ∀ c t : ℚ, (rampRunSteps n ⟨c, t, 0⟩).2 = some ⟨c + n * 0, t, 0⟩ := by
  induction n with
  | zero => intro c t; simp [rampRunSteps]
  | succ n ih =>
    intro c t
    have htick : rampTick ⟨c, t, 0⟩ = (c + 0, some ⟨c + 0, t, 0⟩) := by
      simp [rampTick]
    simp only [rampRunSteps, htick]
    rw [ih (c + 0) t]
    norm_num

/-- Counterexample to claim C4: with start volume 50, target volume 50 and
effective duration 1000 ms the increment is 0, so the interval installed by
`startVolumeRamp` never clears itself: no finite number of 500 ms firings
terminates the ramp, and no final exact `setVolume(target)` step exists. -/
theorem ramp_stall_counterexample :
    startVolumeRamp 50 50 1000 = ([50], some ⟨50, 50, 0⟩) ∧
    ¬∃ n : Nat, (rampRunSteps n ⟨50, 50, 0⟩).2 = none := by
  constructor
  · norm_num [startVolumeRamp]
  · rintro ⟨n, hn⟩
    rw [rampRunSteps_zero_increment n 50 50] at hn
    exact Option.noConfusion hn

theorem rampRunSteps_up (i t : ℚ) (hi : 0 < i) :
    ∀ k : Nat, ∀ c : ℚ, t ≤ c + (k + 1) * i →
      ∃ calls, rampRunSteps (k + 1) ⟨c, t, i⟩ = (calls, none) ∧
        calls ≠ [] ∧ calls.getLast? = some t ∧ ∀ v ∈ calls.dropLast, v < t := by
  intro k
  induction k with
  | zero =>
    intro c hc
    have hstop : t ≤ c + i := by push_cast at hc; linarith
    refine ⟨[t], ?_, by simp, by simp, by simp⟩
    simp [rampRunSteps, rampTick, hi, hstop]
  | succ k ih =>
    intro c hc
    by_cases hstop : t ≤ c + i
    · refine ⟨[t], ?_, by simp, by simp, by simp⟩
      simp [rampRunSteps, rampTick, hi, hstop]
    · push_neg at hstop
      have htick : rampTick ⟨c, t, i⟩ = (c + i, some ⟨c + i, t, i⟩) := by
        simp only [rampTick]
        rw [if_neg (by push_neg; intro _; linarith), if_neg (by push_neg; intro h; linarith)]
      obtain ⟨calls, hrun, hne, hlast, hmid⟩ := ih (c + i) (by push_cast at hc ⊢; linarith)
      refine ⟨(c + i) :: calls, ?_, by simp, ?_, ?_⟩
      · rw [rampRunSteps_succ, htick]
        simp only [hrun]
      · rwa [getLast?_cons_ne_nil _ _ hne]
      · intro v hv
        rw [dropLast_cons_ne_nil _ _ hne] at hv
        rcases List.mem_cons.mp hv with h | h
        · simpa [h] using hstop
        · exact hmid v h

theorem rampRunSteps_down (i t : ℚ) (hi : i < 0) :
    ∀ k : Nat, ∀ c : ℚ, c + (k + 1) * i ≤ t →
      ∃ calls, rampRunSteps (k + 1) ⟨c, t, i⟩ = (calls, none) ∧
        calls ≠ [] ∧ calls.getLast? = some t ∧ ∀ v ∈ calls.dropLast, t < v := by
  intro k
  induction k with
  | zero =>
    intro c hc
    have hstop : c + i ≤ t := by push_cast at hc; linarith
    refine ⟨[t], ?_, by simp, by simp, by simp⟩
    have hnotup : ¬(0 < i ∧ t ≤ c + i) := by push_neg; intro h; linarith
    simp [rampRunSteps, rampTick, hnotup, hi, hstop]
  | succ k ih =>
    intro c hc
    by_cases hstop : c + i ≤ t
    · refine ⟨[t], ?_, by simp, by simp, by simp⟩
      have hnotup : ¬(0 < i ∧ t ≤ c + i) := by push_neg; intro h; linarith
      simp [rampRunSteps, rampTick, hnotup, hi, hstop]
    · push_neg at hstop
      have htick : rampTick ⟨c, t, i⟩ = (c + i, some ⟨c + i, t, i⟩) := by
        simp only [rampTick]
        rw [if_neg (by push_neg; intro h; linarith), if_neg (by push_neg; intro _; linarith)]
      obtain ⟨calls, hrun, hne, hlast, hmid⟩ := ih (c + i) (by push_cast at hc ⊢; linarith)
      refine ⟨(c + i) :: calls, ?_, by simp, ?_, ?_⟩
      · rw [rampRunSteps_succ, htick]
        simp only [hrun]
      · rwa [getLast?_cons_ne_nil _ _ hne]
      · intro v hv
        rw [dropLast_cons_ne_nil _ _ hne] at hv
        rcases List.mem_cons.mp hv with h | h
        · simpa [h] using hstop
        · exact hmid v h

/-- Claim C4 as amended: for every start volume, target volume and positive
effective ramp duration, provided the start differs from the target, the
installed interval clears itself after finitely many 500 ms firings, the
call issued by its final firing is exactly the target volume, and no
earlier firing issues the target volume.  (When start equals target the
increment is 0 and the interval never terminates, per the
counterexample.) -/
theorem ramp_terminates_exact (startFrom targetVolume dur : ℚ)
    (hdur : 0 < dur) (hne : startFrom ≠ targetVolume) :
    ∃ r₀, (startVolumeRamp startFrom targetVolume dur).2 = some r₀ ∧
      (startVolumeRamp startFrom targetVolume dur).1 = [startFrom] ∧
      ∃ n calls, rampRunSteps n r₀ = (calls, none) ∧
        calls ≠ [] ∧ calls.getLast? = some targetVolume ∧
        ∀ v ∈ calls.dropLast, v ≠ targetVolume := by
  have hd0 : dur ≠ 0 := ne_of_gt hdur
  have hsteps : (0 : ℚ) < dur / 500 := by positivity
  set i : ℚ := (targetVolume - startFrom) / (dur / 500) with hi_def
  refine ⟨⟨startFrom, targetVolume, i⟩, ?_, ?_, ?_⟩
  · simp [startVolumeRamp, hd0]
  · simp [startVolumeRamp, hd0]
  · rcases lt_or_gt_of_ne hne with hlt | hgt
    · have hipos : 0 < i := div_pos (by linarith) hsteps
      set q : ℚ := (targetVolume - startFrom) / i with hq_def
      have hqi : q * i = targetVolume - startFrom :=
        div_mul_cancel₀ _ (ne_of_gt hipos)
      have hreach : targetVolume ≤ startFrom + ((Nat.ceil q : ℚ) + 1) * i := by
        have h1 : q ≤ (Nat.ceil q : ℚ) := Nat.le_ceil q
        have h2 : q * i ≤ ((Nat.ceil q : ℚ) + 1) * i :=
          mul_le_mul_of_nonneg_right (by linarith) (le_of_lt hipos)
        linarith [hqi ▸ h2]
      obtain ⟨calls, hrun, hcne, hlast, hmid⟩ :=
        rampRunSteps_up i targetVolume hipos (Nat.ceil q) startFrom (by linarith [hreach])
      exact ⟨Nat.ceil q + 1, calls, hrun, hcne, hlast,
        fun v hv => ne_of_lt (hmid v hv)⟩
    · have hineg : i < 0 := div_neg_of_neg_of_pos (by linarith) hsteps
      set q : ℚ := (targetVolume - startFrom) / i with hq_def
      have hqi : q * i = targetVolume - startFrom :=
        div_mul_cancel₀ _ (ne_of_lt hineg)
      have hreach : startFrom + ((Nat.ceil q : ℚ) + 1) * i ≤ targetVolume := by
        have h1 : q ≤ (Nat.ceil q : ℚ) := Nat.le_ceil q
        have h2 : ((Nat.ceil q : ℚ) + 1) * i ≤ q * i :=
          mul_le_mul_of_nonpos_right (by linarith) (le_of_lt hineg)
        linarith [hqi ▸ h2]
      obtain ⟨calls, hrun, hcne, hlast, hmid⟩ :=
        rampRunSteps_down i targetVolume hineg (Nat.ceil q) startFrom (by linarith [hreach])
      exact ⟨Nat.ceil q + 1, calls, hrun, hcne, hlast,
        fun v hv => (ne_of_lt (hmid v hv)).symm⟩

/-- Witness for the amended claim C4 at start 0, target 100, duration
15000 ms. -/
theorem ramp_terminates_exact_witness :
    (0 : ℚ) < 15000 ∧ (0 : ℚ) ≠ 100 ∧
    (∃ r₀, (startVolumeRamp 0 100 15000).2 = some r₀ ∧
      (startVolumeRamp 0 100 15000).1 = [0] ∧
      ∃ n calls, rampRunSteps n r₀ = (calls, none) ∧
        calls ≠ [] ∧ calls.getLast? = some 100 ∧
        ∀ v ∈ calls.dropLast, v ≠ 100) :=
  ⟨by norm_num, by norm_num,
   ramp_terminates_exact 0 100 15000 (by norm_num) (by norm_num)⟩

/-! ## Control sequences and the controlling flag -/

/-- The externally visible steps a control sequence can take, named after
the source calls they stand for. -/
inductive ControlAction
  | startRecordingCall
  | stopRecordingUpload
  | appendDisabledLog
  | stopRamp
  | zeroVolume
  | gatewayEnable
  | gatewayDisable
  | startRamp
  | clearControlling
deriving Repr, DecidableEq

/-- The asynchronous enable sequence launched at activation (source lines
810-818), in program order: `await startRecording()`,
`await setDevicesVolume(0)`, `await controlSpeakers(true)`,
`startVolumeRamp()`, then the synchronous clearing of
`controllingSpakersRef`. -/
def enableSequence : List ControlAction :=
  [.startRecordingCall, .zeroVolume, .gatewayEnable, .startRamp, .clearControlling]

/-- The asynchronous disable sequence launched when the release timer
fires (source lines 859-875), in program order:
`await stopRecordingAndUpload()`, the `speakers_disabled` log append,
`stopVolumeRamp()`, `await setDevicesVolume(0)`,
`await controlSpeakers(false)`, then the synchronous clearing of
`controllingSpakersRef`. -/
def disableSequence : List ControlAction :=
  [.stopRecordingUpload, .appendDisabledLog, .stopRamp, .zeroVolume,
   .gatewayDisable, .clearControlling]

/-- The guarded disable steps of `stopMonitoring` (source lines 913-918):
`await controlSpeakers(false)` then the clearing of the flag. -/
def stopMonitoringSequence : List ControlAction :=
  [.gatewayDisable, .clearControlling]

/-- Counterexample to claim C3: in the deactivation sequence the source
stops the recorder and finalizes/uploads the clip (line 861) before it
stops the volume ramp engine (line 871), so the claimed order — ramp stop
first, recorder stop second — is false. -/
theorem disable_order_counterexample :
    ¬ disableSequence.indexOf ControlAction.stopRamp <
      disableSequence.indexOf ControlAction.stopRecordingUpload := by
  decide

/-- Claim C3 as amended: when the release timer fires with no control
operation in flight, the deactivation sequence performs, in this order:
(i) stop the recorder and finalize/upload the clip, (ii) stop the volume
ramp engine, (iii) zero the device volumes, (iv) call the device gateway
disable on all targets, and only then clears the controlling flag, which
is the final step of the sequence. -/
theorem disable_order_spec :
    disableSequence.indexOf ControlAction.stopRecordingUpload <
      disableSequence.indexOf ControlAction.stopRamp ∧
    disableSequence.indexOf ControlAction.stopRamp <
      disableSequence.indexOf ControlAction.zeroVolume ∧
    disableSequence.indexOf ControlAction.zeroVolume <
      disableSequence.indexOf ControlAction.gatewayDisable ∧
    disableSequence.indexOf ControlAction.gatewayDisable <
      disableSequence.indexOf ControlAction.clearControlling ∧
    disableSequence.getLast? = some ControlAction.clearControlling := by
  decide

/-- Which control sequence a trigger starts. -/
inductive SeqKind
  | enableK
  | disableK
  | stopMonK
deriving Repr, DecidableEq

/-- The action list of each control sequence. -/
def seqActions : SeqKind → List ControlAction
  | .enableK => enableSequence
  | .disableK => disableSequence
  | .stopMonK => stopMonitoringSequence

/-- The `controlling` flag (`controllingSpakersRef`) together with the
not-yet-executed steps of the control sequence currently in flight
(empty when none is). -/
structure ControlState where
  controlling : Bool
  pending : List ControlAction
deriving Repr, DecidableEq

/-- Events the single-threaded event loop can process between sample
ticks: a transition trigger (the guarded blocks at source lines 784-791,
847-849 and 913-914: when the flag is already set the trigger is dropped,
otherwise the flag is set synchronously and the sequence becomes pending),
or the completion of one pending asynchronous call.  Every call of every
sequence catches its own errors (`startRecording`, `setDevicesVolume`,
`controlSpeakers` and `stopRecordingAndUpload` never reject), so a failed
call (`failed = true`) continues the sequence exactly like a successful
one; the flag is reset by the sequence's final synchronous statement,
`clearControlling`. -/
inductive ControlEvent
  | trigger (k : SeqKind)
  | step (failed : Bool)
deriving Repr, DecidableEq

/-- One event of the control-flag machine. -/
def controlStep (s : ControlState) : ControlEvent → ControlState
  | .trigger k =>
    if s.controlling then s
    else { controlling := true, pending := seqActions k }
  | .step _ =>
    match s.pending with
    | [] => s
    | a :: rest =>
      { controlling := if a = .clearControlling then false else s.controlling,
        pending := rest }

/-- Runs the control-flag machine from the initial state (flag clear,
nothing in flight). -/
def runControl (evts : List ControlEvent) : ControlState :=
  evts.foldl controlStep { controlling := false, pending := [] }

/-- All suffixes of the three control sequences: the possible values of
the pending-step list. -/
def controlTails : List (List ControlAction) :=
  enableSequence.tails ++ disableSequence.tails ++ stopMonitoringSequence.tails

/-- The control-flag invariant: the flag is set exactly while steps are
pending, and the pending list is a suffix of one of the three control
sequences. -/
def ControlInv (s : ControlState) : Prop :=
  (s.controlling = true ↔ s.pending ≠ []) ∧ s.pending ∈ controlTails

theorem controlTails_step :
    ∀ l ∈ controlTails, l ≠ [] →
      ((l.head? = some ControlAction.clearControlling) ↔ l.tail = []) ∧
      l.tail ∈ controlTails := by
  decide

theorem seqActions_mem_tails (k : SeqKind) : seqActions k ∈ controlTails := by
  cases k <;> decide

theorem seqActions_ne_nil (k : SeqKind) : seqActions k ≠ [] := by
  cases k <;> decide

theorem nil_mem_controlTails : ([] : List ControlAction) ∈ controlTails := by
  decide

theorem controlStep_preserves (s : ControlState) (e : ControlEvent)
    (h : ControlInv s) : ControlInv (controlStep s e) := by
  obtain ⟨hiff, htail⟩ := h
  cases e with
  | trigger k =>
    by_cases hc : s.controlling = true
    · simpa [controlStep, hc] using ⟨hiff, htail⟩
    · have hc2 : s.controlling = false := by
        simpa using hc
      constructor
      · simp [controlStep, hc2, seqActions_ne_nil k]
      · simpa [controlStep, hc2] using seqActions_mem_tails k
  | step f =>
    match hp : s.pending with
    | [] => simpa [controlStep, hp] using ⟨hiff, htail⟩
    | a :: rest =>
      rw [hp] at htail
      obtain ⟨hclear, hrest⟩ := controlTails_step _ htail (by simp)
      simp only [List.head?_cons, Option.some.injEq, List.tail_cons] at hclear hrest
      constructor
      · simp only [controlStep, hp]
        by_cases ha : a = ControlAction.clearControlling
        · simp [ha, hclear.mp ha]
        · have hr : rest ≠ [] := fun hrr => ha (hclear.mpr hrr)
          simp [ha, hr, hiff.mpr (by simp [hp])]
      · simpa [controlStep, hp] using hrest

theorem runControl_inv (evts : List ControlEvent) : ControlInv (runControl evts) := by
  have init : ControlInv { controlling := false, pending := [] } :=
    ⟨by simp, nil_mem_controlTails⟩
  rw [runControl]
  generalize hs : ({ controlling := false, pending := [] } : ControlState) = s0
  rw [hs] at init
  clear hs
  induction evts generalizing s0 with
  | nil => simpa using init
  | cons e rest ih =>
    simp only [List.foldl_cons]
    exact ih _ (controlStep_preserves s0 e init)

/-- Claim C2: the `controlling` flag is a mutual-exclusion guard: after any
sequence of triggers and call completions it is set exactly while a control
sequence is in flight (so it is set synchronously at the start of a
sequence and becomes false only when the full sequence, failures included,
has completed), a trigger arriving while it is set is dropped without
starting a second sequence, an accepted trigger sets it synchronously
before any call of the new sequence runs, and a failing call advances the
sequence exactly like a successful one. -/
theorem controlling_mutual_exclusion (evts : List ControlEvent) (k : SeqKind) :
    ((runControl evts).controlling = true ↔ (runControl evts).pending ≠ []) ∧
    ((runControl evts).controlling = true →
      controlStep (runControl evts) (.trigger k) = runControl evts) ∧
    ((runControl evts).controlling = false →
      (controlStep (runControl evts) (.trigger k)).controlling = true ∧
      (controlStep (runControl evts) (.trigger k)).pending = seqActions k) ∧
    (controlStep (runControl evts) (.step true) =
      controlStep (runControl evts) (.step false)) := by
  refine ⟨(runControl_inv evts).1, fun hc => ?_, fun hc => ?_, ?_⟩
  · simp [controlStep, hc]
  · simp [controlStep, hc]
  · rfl

/-- Witness for claim C2 after an accepted enable trigger and one completed
call. -/
theorem controlling_mutual_exclusion_witness :
    ((runControl [.trigger .enableK, .step false]).controlling = true ↔
      (runControl [.trigger .enableK, .step false]).pending ≠ []) ∧
    ((runControl [.trigger .enableK, .step false]).controlling = true →
      controlStep (runControl [.trigger .enableK, .step false]) (.trigger .disableK) =
        runControl [.trigger .enableK, .step false]) :=
  ⟨(controlling_mutual_exclusion [.trigger .enableK, .step false] .disableK).1,
   (controlling_mutual_exclusion [.trigger .enableK, .step false] .disableK).2.1⟩

/-! ## stopMonitoring -/

/-- The mutable monitoring state relevant to deliberate shutdown:
`isCapturing` (the capture hook), the `speakersEnabled` / `audioDetected`
state, the `controllingSpakersRef` flag, the sustain tracking timestamp
(`sustainedAudioStartRef`), the pending release-timer deadline
(`audioDetectionTimeoutRef`, as the wall-clock time at which the scheduled
callback fires), and the ramp interval (`volumeRampIntervalRef`). -/
structure MonitorState where
  isCapturing : Bool
  speakersEnabled : Bool
  audioDetected : Bool
  controlling : Bool
  sustainedStart : Option Nat
  disableDeadline : Option Nat
  rampInterval : Option RampRun
deriving Repr, DecidableEq

/-- Embeds `stopMonitoring` (source lines 894-919): `stopCapture()` ends
capture, `stopVolumeRamp()` clears the ramp interval and zeroes the device
volumes, and — only if speakers are enabled and no control operation is in
flight — the flag is set, speakers are flipped off, the gateway disable
call is awaited and the flag is cleared before control returns.  Nothing
in the function touches `audioDetectionTimeoutRef` or
`sustainedAudioStartRef`. -/
def stopMonitoring (s : MonitorState) : MonitorState × List ControlAction :=
  let s1 := { s with isCapturing := false, rampInterval := none }
  if s1.speakersEnabled && !s1.controlling then
    ({ s1 with speakersEnabled := false },
     [.stopRamp, .zeroVolume, .gatewayDisable])
  else
    (s1, [.stopRamp, .zeroVolume])

/-- Embeds the cleanup branch of the activity-detection effect (source
lines 764-770), which runs when `isCapturing` has become false: it clears
the sustain tracking timestamp and returns — it does not clear the pending
release timer. -/
def captureStoppedCleanup (s : MonitorState) : MonitorState :=
  if s.isCapturing then s else { s with sustainedStart := none }

/-- `stopMonitoring` followed by the re-run of the activity-detection
effect that its capture stop causes. -/
def stopMonitoringAndSettle (s : MonitorState) : MonitorState × List ControlAction :=
  let r := stopMonitoring s
  (captureStoppedCleanup r.1, r.2)

/-- Counterexample to claim C5: from a state with a pending release timer
(deadline 7000 ms), stopping monitoring leaves that timer pending — its
callback can still fire after monitoring stops, contrary to the claim that
stopMonitoring cancels any pending release timer. -/
theorem stopMonitoring_release_timer_counterexample :
    ((stopMonitoringAndSettle
      { isCapturing := true, speakersEnabled := true, audioDetected := true,
        controlling := false, sustainedStart := none,
        disableDeadline := some 7000,
        rampInterval := some ⟨10, 100, 5⟩ }).1).disableDeadline = some 7000 := by
  decide

/-- Claim C5 as amended: stopping monitoring cancels the ramp timer, and
the capture-stop cleanup clears the sustain tracking; when speakers are
active and no control operation is in flight the speakers flag is cleared
and the gateway disable call is issued (and awaited) before control
returns.  A pending release (disable-countdown) timer, however, is left
untouched, and when a control operation is in flight the disable branch is
skipped entirely. -/
theorem stopMonitoring_spec (s : MonitorState) :
    ((stopMonitoringAndSettle s).1.rampInterval = none) ∧
    ((stopMonitoringAndSettle s).1.sustainedStart = none) ∧
    ((stopMonitoringAndSettle s).1.isCapturing = false) ∧
    ((stopMonitoringAndSettle s).1.disableDeadline = s.disableDeadline) ∧
    (s.speakersEnabled = true → s.controlling = false →
      (stopMonitoringAndSettle s).1.speakersEnabled = false ∧
      (stopMonitoringAndSettle s).2 = [.stopRamp, .zeroVolume, .gatewayDisable]) ∧
    (s.controlling = true →
      (stopMonitoringAndSettle s).1.speakersEnabled = s.speakersEnabled ∧
      (stopMonitoringAndSettle s).2 = [.stopRamp, .zeroVolume]) := by
  by_cases he : s.speakersEnabled <;> by_cases hc : s.controlling <;>
    simp [stopMonitoringAndSettle, stopMonitoring, captureStoppedCleanup, he, hc]

/-- Witness for the amended claim C5 at a concrete active state. -/
theorem stopMonitoring_spec_witness :
    ((stopMonitoringAndSettle
      { isCapturing := true, speakersEnabled := true, audioDetected := true,
        controlling := false, sustainedStart := some 100,
        disableDeadline := none, rampInterval := none }).1.speakersEnabled = false) ∧
    ((stopMonitoringAndSettle
      { isCapturing := true, speakersEnabled := true, audioDetected := true,
        controlling := false, sustainedStart := some 100,
        disableDeadline := none, rampInterval := none }).2 =
      [.stopRamp, .zeroVolume, .gatewayDisable]) :=
  (stopMonitoring_spec
    { isCapturing := true, speakersEnabled := true, audioDetected := true,
      controlling := false, sustainedStart := some 100,
      disableDeadline := none, rampInterval := none }).2.2.2.2.1 rfl rfl

/-! ## Activation state machine

The audio-activity-detection effect (source lines 763-882) is embedded as
a step function over the refs and state it reads and writes, driven by the
sequence of processed level samples in wall-clock order.  Each sample
carries the `Date.now()` at which the effect run processes it and the
integer level the meter produced.  The release timer
(`audioDetectionTimeoutRef`) is embedded as the wall-clock deadline of its
scheduled callback; a due callback runs before the next effect run
(`flushTimers`).  The asynchronous enable/disable sequences are modelled
as completing between event-loop turns, so `controllingSpakersRef` is
false whenever a sample or a timer callback is processed (its guard
behaviour is verified separately by the control-flag machine).
`Date.now()` is strictly positive, so the nullness of
`sustainedAudioStartRef` is faithfully represented by `Option`. -/

/-- One processed level sample: the wall-clock time (ms) of the effect run
and the integer level (`Math.round((average / 255) * 100)`). -/
structure Sample where
  time : Nat
  level : Nat
deriving Repr, DecidableEq

/-- The threshold/sustain/release configuration the detection effect
reads: `audioThreshold`, `sustainDuration` (ms), `disableDelay` (ms). -/
structure DetectConfig where
  audioThreshold : Nat
  sustainDuration : Nat
  disableDelay : Nat
deriving Repr, DecidableEq

/-- The state the detection effect reads and writes:
`sustainedAudioStartRef` (sustain tracking start time), the
`speakersEnabled` and `audioDetected` state, and the pending release-timer
deadline (`audioDetectionTimeoutRef`). -/
structure DetectState where
  sustainedStart : Option Nat
  speakersEnabled : Bool
  audioDetected : Bool
  disableDeadline : Option Nat
deriving Repr, DecidableEq

/-- The initial state: nothing tracked, speakers off, no timer. -/
def initDetect : DetectState :=
  { sustainedStart := none, speakersEnabled := false, audioDetected := false,
    disableDeadline := none }

/-- The release-timer callback (source lines 847-878) as it runs with no
control operation in flight: speakers are turned off, `audioDetected` is
reset, the timeout ref is nulled (the disable sequence's device calls are
modelled by the control machine above). -/
def fireRelease (s : DetectState) : DetectState :=
  { s with
      speakersEnabled := false,
      audioDetected := false,
      disableDeadline := none }

/-- Runs the pending release-timer callback when its deadline has been
reached by wall-clock time `t`. -/
def flushTimers (t : Nat) (s : DetectState) : DetectState :=
  match s.disableDeadline with
  | some d => if d ≤ t then fireRelease s else s
  | none => s

/-- The body of the activity-detection effect for one sample processed
while capturing (source lines 774-881), at wall-clock time `t` with meter
level `level`:
if the level is strictly above the threshold, start sustain tracking when
idle and speakers are off (lines 778-781), enable the speakers once the
tracked time span reaches `sustainDuration` (lines 784-820), and clear any
pending release timer (lines 823-826); otherwise reset the sustain
tracking (lines 832-835) and, when speakers are on and no countdown is
pending, schedule the release callback `disableDelay` from now (lines
838-879). -/
def processLevel (cfg : DetectConfig) (t level : Nat) (s : DetectState) :
    DetectState :=
  if cfg.audioThreshold < level then
    let s1 := if s.sustainedStart = none ∧ s.speakersEnabled = false then
      { s with sustainedStart := some t } else s
    let s2 := match s1.sustainedStart with
      | some st =>
        if s1.speakersEnabled = false ∧ cfg.sustainDuration ≤ t - st then
          { s1 with
              sustainedStart := none,
              audioDetected := true,
              speakersEnabled := true }
        else s1
      | none => s1
    { s2 with disableDeadline := none }
  else
    let s1 := { s with sustainedStart := none }
    if s1.audioDetected = true ∧ s1.speakersEnabled = true ∧
        s1.disableDeadline = none then
      { s1 with disableDeadline := some (t + cfg.disableDelay) }
    else s1

/-- One event-loop turn: run a due release callback, then the effect body
for the sample. -/
def stepSample (cfg : DetectConfig) (s : DetectState) (x : Sample) : DetectState :=
  processLevel cfg x.time x.level (flushTimers x.time s)

/-- Processes a whole sample sequence from the initial state. -/
def runDetect (cfg : DetectConfig) (samples : List Sample) : DetectState :=
  samples.foldl (stepSample cfg) initDetect

/-- The sample at index `i` (a dummy sample out of range). -/
def sampleAt (p : List Sample) (i : Nat) : Sample := p.getD i ⟨0, 0⟩

/-- The wall-clock time of the sample at index `i`. -/
def timeAt (p : List Sample) (i : Nat) : Nat := (sampleAt p i).time

/-- The sample at index `i` is strictly above the threshold. -/
def aboveAt (cfg : DetectConfig) (p : List Sample) (i : Nat) : Prop :=
  cfg.audioThreshold < (sampleAt p i).level

/-- The sample at index `i` is at or below the threshold. -/
def silentAt (cfg : DetectConfig) (p : List Sample) (i : Nat) : Prop :=
  (sampleAt p i).level ≤ cfg.audioThreshold

/-- The time of the last processed sample (0 for the empty sequence): the
moment at which the machine's state is inspected. -/
def lastTime (p : List Sample) : Nat := timeAt p (p.length - 1)

/-- The state after processing the whole sequence and running a release
callback that has come due by then. -/
def finalDetect (cfg : DetectConfig) (samples : List Sample) : DetectState :=
  flushTimers (lastTime samples) (runDetect cfg samples)

/-- A contiguous run of samples, each strictly above the threshold, ends
at index `j` having lasted at least `sustainDuration`: some start index
`i ≤ j` with every sample in `[i, j]` above the threshold and a time span
of at least `sustainDuration`. -/
def ActivationAt (cfg : DetectConfig) (p : List Sample) (j : Nat) : Prop :=
  j < p.length ∧ ∃ i, i ≤ j ∧ (∀ k, i ≤ k → k ≤ j → aboveAt cfg p k) ∧
    timeAt p i + cfg.sustainDuration ≤ timeAt p j

/-- The wall-clock moment the release countdown started at sample `m`
would fire. -/
def deadlineOf (cfg : DetectConfig) (p : List Sample) (m : Nat) : Nat :=
  timeAt p m + cfg.disableDelay

/-- A contiguous silent run starting at sample `m` lasted at least
`disableDelay` before the end of the processed sequence: sample `m` is at
or below the threshold, no strictly-above sample occurs before the
countdown deadline, and some later sample is processed at or after the
deadline (so the silence demonstrably persisted that long). -/
def FiredKill (cfg : DetectConfig) (p : List Sample) (m : Nat) : Prop :=
  m < p.length ∧ silentAt cfg p m ∧
  (∃ u, u < p.length ∧ m < u ∧ deadlineOf cfg p m ≤ timeAt p u) ∧
  (∀ u, m < u → u < p.length → timeAt p u < deadlineOf cfg p m →
    silentAt cfg p u)

/-- The pre-flush declarative activity predicate: some above-threshold run
lasted at least `sustainDuration`, and no silent run observed to last at
least `disableDelay` occurs after it. -/
def PreActive (cfg : DetectConfig) (p : List Sample) : Prop :=
  ∃ j, ActivationAt cfg p j ∧ ∀ m, j < m → ¬ FiredKill cfg p m

/-- A contiguous silent run starting at sample `m` has lasted at least
`disableDelay` by wall-clock time `T`: sample `m` is at or below the
threshold, the countdown deadline has passed by `T`, and no
strictly-above sample occurs before that deadline. -/
def KillAt (cfg : DetectConfig) (p : List Sample) (T m : Nat) : Prop :=
  m < p.length ∧ silentAt cfg p m ∧ deadlineOf cfg p m ≤ T ∧
  (∀ u, m < u → u < p.length → timeAt p u < deadlineOf cfg p m →
    silentAt cfg p u)

/-- The declarative side of claim C1: some contiguous run of samples, each
strictly above the threshold, lasted at least `sustainDuration`, and no
later contiguous run of samples at or below the threshold lasted at least
`disableDelay` by the time of the last processed sample. -/
def ActiveSpec (cfg : DetectConfig) (p : List Sample) : Prop :=
  ∃ j, ActivationAt cfg p j ∧ ∀ m, j < m → ¬ KillAt cfg p (lastTime p) m

/-! Auxiliary index lemmas for appended samples. -/

theorem sampleAt_append_lt (p : List Sample) (x : Sample) {i : Nat}
    (h : i < p.length) : sampleAt (p ++ [x]) i = sampleAt p i :=
  List.getD_append _ _ _ _ h

theorem sampleAt_append_self (p : List Sample) (x : Sample) :
    sampleAt (p ++ [x]) p.length = x := by
  rw [sampleAt, List.getD_append_right _ _ _ _ (le_refl _)]
  simp

theorem timeAt_append_lt (p : List Sample) (x : Sample) {i : Nat}
    (h : i < p.length) : timeAt (p ++ [x]) i = timeAt p i := by
  rw [timeAt, sampleAt_append_lt p x h, timeAt]

theorem timeAt_append_self (p : List Sample) (x : Sample) :
    timeAt (p ++ [x]) p.length = x.time := by
  rw [timeAt, sampleAt_append_self]

theorem aboveAt_append_lt (cfg : DetectConfig) (p : List Sample) (x : Sample)
    {i : Nat} (h : i < p.length) :
    aboveAt cfg (p ++ [x]) i ↔ aboveAt cfg p i := by
  rw [aboveAt, sampleAt_append_lt p x h, aboveAt]

theorem aboveAt_append_self (cfg : DetectConfig) (p : List Sample) (x : Sample) :
    aboveAt cfg (p ++ [x]) p.length ↔ cfg.audioThreshold < x.level := by
  rw [aboveAt, sampleAt_append_self]

theorem silentAt_append_lt (cfg : DetectConfig) (p : List Sample) (x : Sample)
    {i : Nat} (h : i < p.length) :
    silentAt cfg (p ++ [x]) i ↔ silentAt cfg p i := by
  rw [silentAt, sampleAt_append_lt p x h, silentAt]

theorem silentAt_append_self (cfg : DetectConfig) (p : List Sample) (x : Sample) :
    silentAt cfg (p ++ [x]) p.length ↔ x.level ≤ cfg.audioThreshold := by
  rw [silentAt, sampleAt_append_self]

theorem deadlineOf_append_lt (cfg : DetectConfig) (p : List Sample) (x : Sample)
    {m : Nat} (h : m < p.length) :
    deadlineOf cfg (p ++ [x]) m = deadlineOf cfg p m := by
  rw [deadlineOf, timeAt_append_lt p x h, deadlineOf]

theorem not_aboveAt_iff (cfg : DetectConfig) (p : List Sample) (i : Nat) :
    ¬ aboveAt cfg p i ↔ silentAt cfg p i := by
  rw [aboveAt, silentAt]
  omega

/-- Samples are processed at strictly increasing wall-clock times. -/
def timeLT (a b : Sample) : Prop := a.time < b.time

theorem mono_of_pairwise {p : List Sample} (hp : p.Pairwise timeLT)
    {i j : Nat} (hij : i < j) (hj : j < p.length) : timeAt p i < timeAt p j := by
  rw [List.pairwise_iff_getElem] at hp
  have h := hp i j (Nat.lt_trans hij hj) hj hij
  rw [timeAt, sampleAt, List.getD_eq_getElem p _ (Nat.lt_trans hij hj),
    timeAt, sampleAt, List.getD_eq_getElem p _ hj]
  exact h

theorem mono_le_of_pairwise {p : List Sample} (hp : p.Pairwise timeLT)
    {i j : Nat} (hij : i ≤ j) (hj : j < p.length) : timeAt p i ≤ timeAt p j := by
  rcases Nat.eq_or_lt_of_le hij with he | hlt
  · rw [he]
  · exact Nat.le_of_lt (mono_of_pairwise hp hlt hj)

theorem pairwise_of_append {p : List Sample} {x : Sample}
    (h : (p ++ [x]).Pairwise timeLT) : p.Pairwise timeLT := by
  rw [List.pairwise_append] at h
  exact h.1

theorem time_lt_new {p : List Sample} {x : Sample}
    (h : (p ++ [x]).Pairwise timeLT) {i : Nat} (hi : i < p.length) :
    timeAt p i < x.time := by
  rw [List.pairwise_append] at h
  have hmem := h.2.2 p[i] (p.getElem_mem hi) x (by simp)
  rw [timeAt, sampleAt, List.getD_eq_getElem p _ hi]
  exact hmem

/-- The inductive invariant of the detection machine over a processed
prefix `p` with pre-flush state `s`:
`adEq`: the `audioDetected` state always mirrors `speakersEnabled`;
`pendingShape`: a pending release deadline was set `disableDelay` after the
first sample of the current trailing silent run, while the speakers are on,
and every sample since is silent and earlier than the deadline;
`trailingSilent`: while the speakers are on, a trailing silent sample
always has a countdown pending;
`trackShape`: the sustain tracking timestamp is the time of the first
sample of the current trailing above-threshold run, held only while the
speakers are off and only while that run has not yet spanned
`sustainDuration`;
`trailingAbove`: while the speakers are off, a trailing above-threshold
sample is always being tracked;
`activeIff`: the speakers are on exactly when `PreActive` holds. -/
structure DetectInv (cfg : DetectConfig) (p : List Sample) (s : DetectState) : Prop where
  adEq : s.audioDetected = s.speakersEnabled
  pendingShape : ∀ d, s.disableDeadline = some d →
    s.speakersEnabled = true ∧
    ∃ m, m < p.length ∧ silentAt cfg p m ∧ d = deadlineOf cfg p m ∧
      (m = 0 ∨ aboveAt cfg p (m - 1)) ∧
      ∀ u, m < u → u < p.length → silentAt cfg p u ∧ timeAt p u < d
  trailingSilent : s.speakersEnabled = true → 0 < p.length →
    silentAt cfg p (p.length - 1) → s.disableDeadline ≠ none
  trackShape : ∀ st, s.sustainedStart = some st →
    s.speakersEnabled = false ∧
    ∃ i, i < p.length ∧ timeAt p i = st ∧ (i = 0 ∨ silentAt cfg p (i - 1)) ∧
      (∀ u, i ≤ u → u < p.length → aboveAt cfg p u) ∧
      timeAt p (p.length - 1) < st + cfg.sustainDuration
  trailingAbove : s.speakersEnabled = false → 0 < p.length →
    aboveAt cfg p (p.length - 1) → s.sustainedStart ≠ none
  activeIff : s.speakersEnabled = true ↔ PreActive cfg p

theorem detectInv_nil (cfg : DetectConfig) : DetectInv cfg [] initDetect := by
  refine ⟨rfl, fun d hd => by simp [initDetect] at hd, by simp, fun st hst => by simp [initDetect] at hst, by simp, ?_⟩
  simp only [initDetect, Bool.false_eq_true, false_iff]
  rintro ⟨j, ⟨hj, _⟩, _⟩
  simp at hj

theorem activationAt_append_of {cfg : DetectConfig} {p : List Sample} {x : Sample}
    {j : Nat} (h : ActivationAt cfg p j) : ActivationAt cfg (p ++ [x]) j := by
  obtain ⟨hj, i, hij, hrun, hspan⟩ := h
  refine ⟨by simp; omega, i, hij, fun k h1 h2 => ?_, ?_⟩
  · rw [aboveAt_append_lt cfg p x (Nat.lt_of_le_of_lt h2 hj)]
    exact hrun k h1 h2
  · rw [timeAt_append_lt p x (Nat.lt_of_le_of_lt hij hj), timeAt_append_lt p x hj]
    exact hspan

theorem activationAt_restrict {cfg : DetectConfig} {p : List Sample} {x : Sample}
    {j : Nat} (h : ActivationAt cfg (p ++ [x]) j) (hj : j < p.length) :
    ActivationAt cfg p j := by
  obtain ⟨_, i, hij, hrun, hspan⟩ := h
  refine ⟨hj, i, hij, fun k h1 h2 => ?_, ?_⟩
  · rw [← aboveAt_append_lt cfg p x (Nat.lt_of_le_of_lt h2 hj)]
    exact hrun k h1 h2
  · rw [← timeAt_append_lt p x (Nat.lt_of_le_of_lt hij hj), ← timeAt_append_lt p x hj]
    exact hspan

theorem firedKill_append_of {cfg : DetectConfig} {p : List Sample} {x : Sample}
    (hmono : (p ++ [x]).Pairwise timeLT) {m : Nat}
    (h : FiredKill cfg p m) : FiredKill cfg (p ++ [x]) m := by
  obtain ⟨hm, hsil, ⟨u, hu, hmu, hdl⟩, hall⟩ := h
  refine ⟨by simp; omega, (silentAt_append_lt cfg p x hm).mpr hsil,
    ⟨u, by simp; omega, hmu, ?_⟩, fun v h1 h2 h3 => ?_⟩
  · rw [deadlineOf_append_lt cfg p x hm, timeAt_append_lt p x hu]
    exact hdl
  · rw [deadlineOf_append_lt cfg p x hm] at h3
    by_cases hv : v < p.length
    · rw [silentAt_append_lt cfg p x hv]
      rw [timeAt_append_lt p x hv] at h3
      exact hall v h1 hv h3
    · have hveq : v = p.length := by
        simp at h2
        omega
      subst hveq
      rw [timeAt_append_self] at h3
      have hx := time_lt_new hmono hu
      omega

theorem firedKill_append_cases {cfg : DetectConfig} {p : List Sample} {x : Sample}
    {m : Nat} (hm : m < p.length)
    (h : FiredKill cfg (p ++ [x]) m) :
    FiredKill cfg p m ∨
    (silentAt cfg p m ∧ deadlineOf cfg p m ≤ x.time ∧
      ∀ u, m < u → u < p.length → silentAt cfg p u) := by
  obtain ⟨_, hsil, ⟨u, hu, hmu, hdl⟩, hall⟩ := h
  rw [silentAt_append_lt cfg p x hm] at hsil
  rw [deadlineOf_append_lt cfg p x hm] at hdl
  have hallp : ∀ v, m < v → v < p.length → timeAt p v < deadlineOf cfg p m →
      silentAt cfg p v := by
    intro v h1 h2 h3
    have := hall v h1 (by simp; omega)
      (by rw [timeAt_append_lt p x h2, deadlineOf_append_lt cfg p x hm]; exact h3)
    rwa [silentAt_append_lt cfg p x h2] at this
  by_cases hex : ∃ w, w < p.length ∧ m < w ∧ deadlineOf cfg p m ≤ timeAt p w
  · exact Or.inl ⟨hm, hsil, hex, hallp⟩
  · push_neg at hex
    right
    have hueq : u = p.length := by
      by_contra hne
      have hup : u < p.length := by
        simp at hu
        omega
      rw [timeAt_append_lt p x hup] at hdl
      exact absurd hdl (Nat.not_le.mpr (hex u hup hmu))
    subst hueq
    rw [timeAt_append_self] at hdl
    exact ⟨hsil, hdl, fun v h1 h2 => hallp v h1 h2 (Nat.lt_of_lt_of_le (hex v h2 h1) (le_refl _))⟩

theorem firedKill_append_new {cfg : DetectConfig} {p : List Sample} {x : Sample}
    {m : Nat} (hm : m < p.length) (hsil : silentAt cfg p m)
    (hd : deadlineOf cfg p m ≤ x.time)
    (hall : ∀ u, m < u → u < p.length → timeAt p u < deadlineOf cfg p m →
      silentAt cfg p u) :
    FiredKill cfg (p ++ [x]) m := by
  refine ⟨by simp; omega, (silentAt_append_lt cfg p x hm).mpr hsil,
    ⟨p.length, by simp, hm, ?_⟩, fun v h1 h2 h3 => ?_⟩
  · rw [deadlineOf_append_lt cfg p x hm, timeAt_append_self]
    exact hd
  · rw [deadlineOf_append_lt cfg p x hm] at h3
    by_cases hv : v < p.length
    · rw [silentAt_append_lt cfg p x hv]
      rw [timeAt_append_lt p x hv] at h3
      exact hall v h1 hv h3
    · have hveq : v = p.length := by
        simp at h2
        omega
      subst hveq
      rw [timeAt_append_self] at h3
      omega

theorem firedKill_last_append_false {cfg : DetectConfig} {p : List Sample}
    {x : Sample} {m : Nat} (hm : p.length ≤ m) :
    ¬ FiredKill cfg (p ++ [x]) m := by
  rintro ⟨h1, _, ⟨u, hu, hmu, _⟩, _⟩
  simp at hu
  omega

theorem preActive_pos_length {cfg : DetectConfig} {p : List Sample}
    (h : PreActive cfg p) : 0 < p.length := by
  obtain ⟨j, ⟨hj, _⟩, _⟩ := h
  omega

/-- Appending a sample preserves `PreActive` provided no silent run is
newly observed to have spanned `disableDelay`. -/
theorem preActive_append {cfg : DetectConfig} {p : List Sample} {x : Sample}
    (hpa : PreActive cfg p)
    (hnonew : ∀ m, m < p.length → silentAt cfg p m → deadlineOf cfg p m ≤ x.time →
      (∀ u, m < u → u < p.length → silentAt cfg p u) → False) :
    PreActive cfg (p ++ [x]) := by
  obtain ⟨j, hact, hnk⟩ := hpa
  refine ⟨j, activationAt_append_of hact, fun m hjm hk => ?_⟩
  by_cases hm : m < p.length
  · rcases firedKill_append_cases hm hk with hold | ⟨h1, h2, h3⟩
    · exact hnk m hjm hold
    · exact hnonew m hm h1 h2 h3
  · exact firedKill_last_append_false (Nat.le_of_not_lt hm) hk

/-- If the prefix was not `PreActive`, no activation confined to the prefix
can witness `PreActive` after appending a sample. -/
theorem no_old_activation {cfg : DetectConfig} {p : List Sample} {x : Sample}
    (hmono : (p ++ [x]).Pairwise timeLT)
    (hnp : ¬ PreActive cfg p) {j : Nat} (hj : j < p.length)
    (hact : ActivationAt cfg (p ++ [x]) j)
    (hnk : ∀ m, j < m → ¬ FiredKill cfg (p ++ [x]) m) : False := by
  rw [PreActive, not_exists] at hnp
  have h1 := hnp j
  rw [not_and_or] at h1
  rcases h1 with h1 | h1
  · exact h1 (activationAt_restrict hact hj)
  · push_neg at h1
    obtain ⟨m, hjm, hkm⟩ := h1
    exact hnk m hjm (firedKill_append_of hmono hkm)

/-- An activation ending at the newly appended sample makes the whole
sequence `PreActive`. -/
theorem preActive_last {cfg : DetectConfig} {p : List Sample} {x : Sample}
    (hact : ActivationAt cfg (p ++ [x]) p.length) :
    PreActive cfg (p ++ [x]) :=
  ⟨p.length, hact, fun m h1 => firedKill_last_append_false (by omega)⟩

/-- An activation run ending at a freshly appended above-threshold sample
with zero sustain requirement. -/
theorem activation_self {cfg : DetectConfig} {p : List Sample} {x : Sample}
    (hx : cfg.audioThreshold < x.level) (hsus : cfg.sustainDuration = 0) :
    ActivationAt cfg (p ++ [x]) p.length := by
  refine ⟨by simp, p.length, le_refl _, fun k h1 h2 => ?_, by rw [hsus]; omega⟩
  have hk : k = p.length := le_antisymm h2 h1
  subst hk
  rw [aboveAt_append_self]
  exact hx

/-- Every sample of an activation run is above the threshold; in
particular the run end is. -/
theorem activationAt_above {cfg : DetectConfig} {p : List Sample} {j : Nat}
    (h : ActivationAt cfg p j) : aboveAt cfg p j := by
  obtain ⟨hj, i, hij, hrun, _⟩ := h
  exact hrun j hij (le_refl _)

/-- The release countdown runs from the first sample of the trailing
silent run: a silent sample followed only by silent samples cannot precede
that first sample. -/
theorem countdown_start_le {cfg : DetectConfig} {p : List Sample}
    {m mB : Nat} (hmB : mB < p.length)
    (hmax : mB = 0 ∨ aboveAt cfg p (mB - 1))
    (hsil : silentAt cfg p m)
    (hallsil : ∀ u, m < u → u < p.length → silentAt cfg p u) :
    mB ≤ m := by
  by_contra hgt
  push_neg at hgt
  rcases hmax with h0 | habove
  · omega
  · have h1 : mB - 1 < p.length := by omega
    have hs : silentAt cfg p (mB - 1) := by
      rcases Nat.eq_or_lt_of_le (by omega : m ≤ mB - 1) with he | hlt
      · rwa [← he]
      · exact hallsil _ hlt h1
    rw [← not_aboveAt_iff] at hs
    exact hs habove

theorem length_append_sub_one (p : List Sample) (x : Sample) :
    (p ++ [x]).length - 1 = p.length := by
  simp

theorem detectInv_shape_enabled {cfg : DetectConfig} {p : List Sample} {x : Sample}
    (hx : cfg.audioThreshold < x.level)
    (hpa : PreActive cfg (p ++ [x])) :
    DetectInv cfg (p ++ [x])
      { sustainedStart := none, speakersEnabled := true, audioDetected := true,
        disableDeadline := none } := by
  refine ⟨rfl, ?_, ?_, ?_, ?_, ?_⟩
  · intro d hd
    exact absurd hd (by simp)
  · intro _ _ hsil
    exfalso
    rw [length_append_sub_one, silentAt_append_self] at hsil
    omega
  · intro st hst
    exact absurd hst (by simp)
  · intro hen
    exact absurd hen (by simp)
  · simp only [true_iff]
    exact hpa

theorem detectInv_shape_tracking {cfg : DetectConfig} {p : List Sample} {x : Sample}
    {st : Nat}
    (hshape : ∃ i, i < (p ++ [x]).length ∧ timeAt (p ++ [x]) i = st ∧
      (i = 0 ∨ silentAt cfg (p ++ [x]) (i - 1)) ∧
      (∀ u, i ≤ u → u < (p ++ [x]).length → aboveAt cfg (p ++ [x]) u) ∧
      timeAt (p ++ [x]) ((p ++ [x]).length - 1) < st + cfg.sustainDuration)
    (hnp : ¬ PreActive cfg (p ++ [x])) :
    DetectInv cfg (p ++ [x])
      { sustainedStart := some st, speakersEnabled := false,
        audioDetected := false, disableDeadline := none } := by
  refine ⟨rfl, ?_, ?_, ?_, ?_, ?_⟩
  · intro d hd
    exact absurd hd (by simp)
  · intro hen
    exact absurd hen (by simp)
  · intro st2 hst2
    have : st2 = st := by
      simpa using hst2.symm
    subst this
    exact ⟨rfl, hshape⟩
  · intro _ _ _
    simp
  · simp only [Bool.false_eq_true, false_iff]
    exact hnp

theorem detectInv_shape_dead {cfg : DetectConfig} {p : List Sample} {x : Sample}
    (hxs : x.level ≤ cfg.audioThreshold)
    (hnp : ¬ PreActive cfg (p ++ [x])) :
    DetectInv cfg (p ++ [x])
      { sustainedStart := none, speakersEnabled := false,
        audioDetected := false, disableDeadline := none } := by
  refine ⟨rfl, ?_, ?_, ?_, ?_, ?_⟩
  · intro d hd
    exact absurd hd (by simp)
  · intro hen
    exact absurd hen (by simp)
  · intro st hst
    exact absurd hst (by simp)
  · intro _ _ habove
    exfalso
    rw [length_append_sub_one, aboveAt_append_self] at habove
    omega
  · simp only [Bool.false_eq_true, false_iff]
    exact hnp

theorem detectInv_shape_pending {cfg : DetectConfig} {p : List Sample} {x : Sample}
    {d : Nat}
    (hshape : ∃ m, m < (p ++ [x]).length ∧ silentAt cfg (p ++ [x]) m ∧
      d = deadlineOf cfg (p ++ [x]) m ∧
      (m = 0 ∨ aboveAt cfg (p ++ [x]) (m - 1)) ∧
      ∀ u, m < u → u < (p ++ [x]).length → silentAt cfg (p ++ [x]) u ∧
        timeAt (p ++ [x]) u < d)
    (hpa : PreActive cfg (p ++ [x])) :
    DetectInv cfg (p ++ [x])
      { sustainedStart := none, speakersEnabled := true, audioDetected := true,
        disableDeadline := some d } := by
  refine ⟨rfl, ?_, ?_, ?_, ?_, ?_⟩
  · intro d2 hd2
    have : d2 = d := by
      simpa using hd2.symm
    subst this
    exact ⟨rfl, hshape⟩
  · intro _ _ _
    simp
  · intro st hst
    exact absurd hst (by simp)
  · intro hen
    exact absurd hen (by simp)
  · simp only [true_iff]
    exact hpa

theorem not_preActive_append_silent {cfg : DetectConfig} {p : List Sample}
    {x : Sample} (hmono : (p ++ [x]).Pairwise timeLT)
    (hnp : ¬ PreActive cfg p) (hxs : x.level ≤ cfg.audioThreshold) :
    ¬ PreActive cfg (p ++ [x]) := by
  rintro ⟨j, hact, hnk⟩
  by_cases hj : j < p.length
  · exact no_old_activation hmono hnp hj hact hnk
  · have hje : j = p.length := by
      obtain ⟨hjlen, _⟩ := hact
      simp at hjlen
      omega
    subst hje
    have habove := activationAt_above hact
    rw [aboveAt_append_self] at habove
    omega

/-- After the release timer has fired, no activation can stand: every
sample from the countdown start onwards is silent, so the only candidate
run would have to end at the new sample, which the hypothesis rules
out. -/
theorem not_preActive_of_fire {cfg : DetectConfig} {p : List Sample} {x : Sample}
    {mB : Nat} (_hmB : mB < p.length)
    (hkill : FiredKill cfg (p ++ [x]) mB)
    (hsilBetween : ∀ u, mB ≤ u → u < p.length → silentAt cfg p u)
    (hnolast : ¬ ActivationAt cfg (p ++ [x]) p.length) :
    ¬ PreActive cfg (p ++ [x]) := by
  rintro ⟨j, hact, hnk⟩
  have hjge : mB ≤ j := by
    by_contra hlt
    push_neg at hlt
    exact hnk mB hlt hkill
  by_cases hj : j < p.length
  · have habove := activationAt_above hact
    rw [aboveAt_append_lt cfg p x hj] at habove
    exact ((not_aboveAt_iff cfg p j).mpr (hsilBetween j hjge hj)) habove
  · have hje : j = p.length := by
      obtain ⟨hjlen, _⟩ := hact
      simp at hjlen
      omega
    subst hje
    exact hnolast hact

theorem detectInv_snoc (cfg : DetectConfig) (p : List Sample) (x : Sample)
    (s : DetectState) (hmono : (p ++ [x]).Pairwise timeLT)
    (h : DetectInv cfg p s) :
    DetectInv cfg (p ++ [x]) (stepSample cfg s x) := by
  obtain ⟨st0, en0, det0, dl0⟩ := s
  obtain ⟨hA, hB, hC, hD, hE, hF⟩ := h
  have hmp : p.Pairwise timeLT := pairwise_of_append hmono
  cases en0 with
  | true =>
    have hdet : det0 = true := hA
    subst hdet
    have hst0 : st0 = none := by
      cases st0 with
      | none => rfl
      | some st => exact absurd ((hD st rfl).1) (by simp)
    subst hst0
    have hpa : PreActive cfg p := hF.mp rfl
    have hpos : 0 < p.length := preActive_pos_length hpa
    cases dl0 with
    | some d =>
      obtain ⟨-, mB, hmB, hsilB, hdB, hmaxB, hallB⟩ := hB d rfl
      have hsilBetween : ∀ u, mB ≤ u → u < p.length → silentAt cfg p u := by
        intro u h1 h2
        rcases Nat.eq_or_lt_of_le h1 with he | hlt
        · rwa [← he]
        · exact (hallB u hlt h2).1
      by_cases hdue : d ≤ x.time
      · -- the release callback fires before this sample is processed
        have hkill : FiredKill cfg (p ++ [x]) mB :=
          firedKill_append_new hmB hsilB (by rw [← hdB]; exact hdue)
            (fun u h1 h2 _ => (hallB u h1 h2).1)
        by_cases hx : cfg.audioThreshold < x.level
        · by_cases hsus0 : cfg.sustainDuration = 0
          · -- fire, then the above sample re-enables instantly
            have hstep : stepSample cfg ⟨none, true, true, some d⟩ x =
                ⟨none, true, true, none⟩ := by
              simp [stepSample, flushTimers, processLevel, fireRelease, hdue, hx, hsus0]
            rw [hstep]
            exact detectInv_shape_enabled hx (preActive_last (activation_self hx hsus0))
          · -- fire, then sustain tracking restarts at this sample
            have hc2 : ¬ (cfg.sustainDuration ≤ x.time - x.time) := by omega
            have hstep : stepSample cfg ⟨none, true, true, some d⟩ x =
                ⟨some x.time, false, false, none⟩ := by
              simp [stepSample, flushTimers, processLevel, fireRelease, hdue, hx, hc2, hsus0]
            rw [hstep]
            have hnolast : ¬ ActivationAt cfg (p ++ [x]) p.length := by
              rintro ⟨-, i, hin, hrun, hspan⟩
              rcases Nat.eq_or_lt_of_le hin with he | hlt
              · rw [he, timeAt_append_self] at hspan
                omega
              · have h1 : aboveAt cfg p (p.length - 1) := by
                  have := hrun (p.length - 1) (by omega) (by omega)
                  rwa [aboveAt_append_lt cfg p x (by omega)] at this
                exact ((not_aboveAt_iff cfg p (p.length - 1)).mpr
                  (hsilBetween (p.length - 1) (by omega) (by omega))) h1
            refine detectInv_shape_tracking ⟨p.length, by simp, timeAt_append_self p x, ?_, ?_, ?_⟩
              (not_preActive_of_fire hmB hkill hsilBetween hnolast)
            · right
              rw [silentAt_append_lt cfg p x (by omega)]
              exact hsilBetween (p.length - 1) (by omega) (by omega)
            · intro u h1 h2
              have hu : u = p.length := by
                simp at h2
                omega
              subst hu
              rw [aboveAt_append_self]
              exact hx
            · rw [length_append_sub_one, timeAt_append_self]
              omega
        · -- fire, sample silent: machine goes fully idle
          push_neg at hx
          have hstep : stepSample cfg ⟨none, true, true, some d⟩ x =
              ⟨none, false, false, none⟩ := by
            have hc2 : ¬ cfg.audioThreshold < x.level := by omega
            simp [stepSample, flushTimers, processLevel, fireRelease, hdue, hc2]
          rw [hstep]
          have hnolast : ¬ ActivationAt cfg (p ++ [x]) p.length := by
            intro hactn
            have := activationAt_above hactn
            rw [aboveAt_append_self] at this
            omega
          exact detectInv_shape_dead hx (not_preActive_of_fire hmB hkill hsilBetween hnolast)
      · -- pending countdown not yet due
        have hnonew : ∀ m, m < p.length → silentAt cfg p m →
            deadlineOf cfg p m ≤ x.time →
            (∀ u, m < u → u < p.length → silentAt cfg p u) → False := by
          intro m hm hsilm hdm hallm
          have hle : mB ≤ m := countdown_start_le hmB hmaxB hsilm hallm
          have h2 : timeAt p mB ≤ timeAt p m := mono_le_of_pairwise hmp hle hm
          rw [hdB] at hdue
          rw [deadlineOf] at hdue hdm
          omega
        by_cases hx : cfg.audioThreshold < x.level
        · -- above sample clears the countdown
          have hstep : stepSample cfg ⟨none, true, true, some d⟩ x =
              ⟨none, true, true, none⟩ := by
            simp [stepSample, flushTimers, processLevel, fireRelease, hdue, hx]
          rw [hstep]
          exact detectInv_shape_enabled hx (preActive_append hpa hnonew)
        · -- silent sample, countdown keeps running
          push_neg at hx
          have hstep : stepSample cfg ⟨none, true, true, some d⟩ x =
              ⟨none, true, true, some d⟩ := by
            have hc2 : ¬ cfg.audioThreshold < x.level := by omega
            simp [stepSample, flushTimers, processLevel, fireRelease, hdue, hc2]
          rw [hstep]
          refine detectInv_shape_pending
            ⟨mB, by simp; omega, (silentAt_append_lt cfg p x hmB).mpr hsilB,
              by rw [deadlineOf_append_lt cfg p x hmB]; exact hdB, ?_, ?_⟩
            (preActive_append hpa hnonew)
          · rcases hmaxB with h0 | hab
            · exact Or.inl h0
            · exact Or.inr ((aboveAt_append_lt cfg p x
                (Nat.lt_of_le_of_lt (Nat.sub_le mB 1) hmB)).mpr hab)
          · intro u h1 h2
            by_cases hu : u < p.length
            · obtain ⟨hs, ht⟩ := hallB u h1 hu
              exact ⟨(silentAt_append_lt cfg p x hu).mpr hs,
                by rw [timeAt_append_lt p x hu]; exact ht⟩
            · have hue : u = p.length := by
                simp at h2
                omega
              subst hue
              rw [silentAt_append_self, timeAt_append_self]
              omega
    | none =>
      have habove : aboveAt cfg p (p.length - 1) := by
        by_contra hno
        rw [not_aboveAt_iff] at hno
        exact (hC rfl hpos hno) rfl
      have hnonew : ∀ m, m < p.length → silentAt cfg p m →
          deadlineOf cfg p m ≤ x.time →
          (∀ u, m < u → u < p.length → silentAt cfg p u) → False := by
        intro m hm hsilm hdm hallm
        rcases Nat.eq_or_lt_of_le (by omega : m ≤ p.length - 1) with he | hlt
        · rw [he] at hsilm
          exact ((not_aboveAt_iff cfg p (p.length - 1)).mpr hsilm) habove
        · exact ((not_aboveAt_iff cfg p (p.length - 1)).mpr
            (hallm _ hlt (by omega))) habove
      by_cases hx : cfg.audioThreshold < x.level
      · have hstep : stepSample cfg ⟨none, true, true, none⟩ x =
            ⟨none, true, true, none⟩ := by
          simp [stepSample, flushTimers, processLevel, hx]
        rw [hstep]
        exact detectInv_shape_enabled hx (preActive_append hpa hnonew)
      · -- silent sample starts the release countdown
        push_neg at hx
        have hstep : stepSample cfg ⟨none, true, true, none⟩ x =
            ⟨none, true, true, some (x.time + cfg.disableDelay)⟩ := by
          have hc2 : ¬ cfg.audioThreshold < x.level := by omega
          simp [stepSample, flushTimers, processLevel, hc2]
        rw [hstep]
        refine detectInv_shape_pending
          ⟨p.length, by simp, by rw [silentAt_append_self]; exact hx,
            by rw [deadlineOf, timeAt_append_self], ?_, ?_⟩
          (preActive_append hpa hnonew)
        · right
          rw [aboveAt_append_lt cfg p x (by omega)]
          exact habove
        · intro u h1 h2
          exfalso
          simp at h2
          omega
  | false =>
    have hdet : det0 = false := hA
    subst hdet
    have hdl0 : dl0 = none := by
      cases dl0 with
      | none => rfl
      | some d => exact absurd ((hB d rfl).1) (by simp)
    subst hdl0
    have hnp : ¬ PreActive cfg p := by
      intro hp
      exact absurd (hF.mpr hp) (by simp)
    by_cases hx : cfg.audioThreshold < x.level
    · cases st0 with
      | some st =>
        obtain ⟨-, iD, hiD, htiD, hmaxD, hrunD, hlastD⟩ := hD st rfl
        have hstlt : st < x.time := by
          rw [← htiD]
          exact time_lt_new hmono hiD
        by_cases hen : cfg.sustainDuration ≤ x.time - st
        · -- the tracked run has now spanned the sustain duration: enable
          have hstep : stepSample cfg ⟨some st, false, false, none⟩ x =
              ⟨none, true, true, none⟩ := by
            simp [stepSample, flushTimers, processLevel, hx, hen]
          rw [hstep]
          have hact : ActivationAt cfg (p ++ [x]) p.length := by
            refine ⟨by simp, iD, Nat.le_of_lt hiD, fun k h1 h2 => ?_, ?_⟩
            · rcases Nat.eq_or_lt_of_le h2 with he | hlt
              · rw [he, aboveAt_append_self]
                exact hx
              · rw [aboveAt_append_lt cfg p x hlt]
                exact hrunD k h1 hlt
            · rw [timeAt_append_lt p x hiD, timeAt_append_self, htiD]
              omega
          exact detectInv_shape_enabled hx (preActive_last hact)
        · -- still short of the sustain duration: keep tracking
          have hstep : stepSample cfg ⟨some st, false, false, none⟩ x =
              ⟨some st, false, false, none⟩ := by
            simp [stepSample, flushTimers, processLevel, hx, hen]
          rw [hstep]
          have hnp2 : ¬ PreActive cfg (p ++ [x]) := by
            rintro ⟨j, hact, hnk⟩
            by_cases hj : j < p.length
            · exact no_old_activation hmono hnp hj hact hnk
            · have hje : j = p.length := by
                obtain ⟨hjlen, _⟩ := hact
                simp at hjlen
                omega
              subst hje
              obtain ⟨-, i, hin, hrun, hspan⟩ := hact
              rcases Nat.eq_or_lt_of_le hin with he | hlt
              · rw [he, timeAt_append_self] at hspan
                have : cfg.sustainDuration = 0 := by omega
                omega
              · have hiDle : iD ≤ i := by
                  by_contra hgt
                  push_neg at hgt
                  rcases hmaxD with h0 | hsil
                  · omega
                  · have h1 : aboveAt cfg (p ++ [x]) (iD - 1) :=
                      hrun (iD - 1) (by omega) (by omega)
                    rw [aboveAt_append_lt cfg p x (by omega)] at h1
                    exact ((not_aboveAt_iff cfg p (iD - 1)).mpr hsil) h1
                have h2 : timeAt p iD ≤ timeAt p i :=
                  mono_le_of_pairwise hmp hiDle hlt
                rw [timeAt_append_lt p x hlt, timeAt_append_self] at hspan
                rw [htiD] at h2
                omega
          refine detectInv_shape_tracking
            ⟨iD, by simp; omega, by rw [timeAt_append_lt p x hiD]; exact htiD, ?_, ?_, ?_⟩ hnp2
          · rcases hmaxD with h0 | hsil
            · exact Or.inl h0
            · exact Or.inr ((silentAt_append_lt cfg p x
                (Nat.lt_of_le_of_lt (Nat.sub_le iD 1) hiD)).mpr hsil)
          · intro u h1 h2
            by_cases hu : u < p.length
            · rw [aboveAt_append_lt cfg p x hu]
              exact hrunD u h1 hu
            · have hue : u = p.length := by
                simp at h2
                omega
              subst hue
              rw [aboveAt_append_self]
              exact hx
          · rw [length_append_sub_one, timeAt_append_self]
            omega
      | none =>
        by_cases hsus0 : cfg.sustainDuration = 0
        · have hstep : stepSample cfg ⟨none, false, false, none⟩ x =
              ⟨none, true, true, none⟩ := by
            simp [stepSample, flushTimers, processLevel, hx, hsus0]
          rw [hstep]
          exact detectInv_shape_enabled hx (preActive_last (activation_self hx hsus0))
        · have hc2 : ¬ (cfg.sustainDuration ≤ x.time - x.time) := by omega
          have hstep : stepSample cfg ⟨none, false, false, none⟩ x =
              ⟨some x.time, false, false, none⟩ := by
            simp [stepSample, flushTimers, processLevel, hx, hc2, hsus0]
          rw [hstep]
          have hlastsil : 0 < p.length → silentAt cfg p (p.length - 1) := by
            intro hpos
            by_contra hno
            have hab : aboveAt cfg p (p.length - 1) := by
              rw [silentAt] at hno
              rw [aboveAt]
              omega
            exact (hE rfl hpos hab) rfl
          have hnp2 : ¬ PreActive cfg (p ++ [x]) := by
            rintro ⟨j, hact, hnk⟩
            by_cases hj : j < p.length
            · exact no_old_activation hmono hnp hj hact hnk
            · have hje : j = p.length := by
                obtain ⟨hjlen, _⟩ := hact
                simp at hjlen
                omega
              subst hje
              obtain ⟨-, i, hin, hrun, hspan⟩ := hact
              rcases Nat.eq_or_lt_of_le hin with he | hlt
              · rw [he, timeAt_append_self] at hspan
                omega
              · have h1 : aboveAt cfg (p ++ [x]) (p.length - 1) :=
                  hrun (p.length - 1) (by omega) (by omega)
                rw [aboveAt_append_lt cfg p x (by omega)] at h1
                exact ((not_aboveAt_iff cfg p (p.length - 1)).mpr
                  (hlastsil (by omega))) h1
          refine detectInv_shape_tracking
            ⟨p.length, by simp, timeAt_append_self p x, ?_, ?_, ?_⟩ hnp2
          · by_cases hpz : p.length = 0
            · exact Or.inl hpz
            · right
              rw [silentAt_append_lt cfg p x (by omega)]
              exact hlastsil (by omega)
          · intro u h1 h2
            have hue : u = p.length := by
              simp at h2
              omega
            subst hue
            rw [aboveAt_append_self]
            exact hx
          · rw [length_append_sub_one, timeAt_append_self]
            omega
    · -- silent sample while idle: reset tracking, stay idle
      push_neg at hx
      have hstep : stepSample cfg ⟨st0, false, false, none⟩ x =
          ⟨none, false, false, none⟩ := by
        have hc2 : ¬ cfg.audioThreshold < x.level := by omega
        simp [stepSample, flushTimers, processLevel, hc2]
      rw [hstep]
      exact detectInv_shape_dead hx (not_preActive_append_silent hmono hnp hx)

theorem detectInv_run (cfg : DetectConfig) :
    ∀ samples : List Sample, samples.Pairwise timeLT →
      DetectInv cfg samples (runDetect cfg samples) := by
  intro samples
  induction samples using List.reverseRecOn with
  | nil =>
    intro _
    exact detectInv_nil cfg
  | append_singleton p x ih =>
    intro hmono
    have h := ih (pairwise_of_append hmono)
    have hrun : runDetect cfg (p ++ [x]) = stepSample cfg (runDetect cfg p) x := by
      rw [runDetect, runDetect, List.foldl_append]
      rfl
    rw [hrun]
    exact detectInv_snoc cfg p x _ hmono h

theorem killAt_of_firedKill {cfg : DetectConfig} {p : List Sample}
    (hmp : p.Pairwise timeLT) {m : Nat} (h : FiredKill cfg p m) :
    KillAt cfg p (lastTime p) m := by
  obtain ⟨hm, hsil, ⟨u, hu, hmu, hdl⟩, hall⟩ := h
  refine ⟨hm, hsil, ?_, hall⟩
  have hle : timeAt p u ≤ timeAt p (p.length - 1) :=
    mono_le_of_pairwise hmp (by omega) (by omega)
  rw [lastTime]
  omega

theorem firedKill_of_killAt_lt {cfg : DetectConfig} {p : List Sample}
    {m : Nat} (h : KillAt cfg p (lastTime p) m) (hlt : m < p.length - 1) :
    FiredKill cfg p m := by
  obtain ⟨hm, hsil, hdl, hall⟩ := h
  rw [lastTime] at hdl
  exact ⟨hm, hsil, ⟨p.length - 1, by omega, hlt, hdl⟩, hall⟩

theorem finalDetect_iff_activeSpec (cfg : DetectConfig) (samples : List Sample)
    (hmono : samples.Pairwise timeLT) :
    (finalDetect cfg samples).speakersEnabled = true ↔ ActiveSpec cfg samples := by
  by_cases hn : samples.length = 0
  · have hnil : samples = [] := List.length_eq_zero.mp hn
    subst hnil
    have hfd : finalDetect cfg [] = initDetect := rfl
    rw [hfd]
    simp only [initDetect, Bool.false_eq_true, false_iff]
    rintro ⟨j, ⟨hj, _⟩, _⟩
    simp at hj
  · have inv := detectInv_run cfg samples hmono
    cases hdl : (runDetect cfg samples).disableDeadline with
    | none =>
      have hfd : finalDetect cfg samples = runDetect cfg samples := by
        simp only [finalDetect, flushTimers, hdl]
      rw [hfd, inv.activeIff]
      constructor
      · rintro ⟨j, hact, hnk⟩
        refine ⟨j, hact, fun m hjm hk => ?_⟩
        by_cases hm1 : m < samples.length - 1
        · exact hnk m hjm (firedKill_of_killAt_lt hk hm1)
        · obtain ⟨hm, hsil, hdlm, hall⟩ := hk
          have hme : m = samples.length - 1 := by omega
          subst hme
          have hen : (runDetect cfg samples).speakersEnabled = true :=
            inv.activeIff.mpr ⟨j, hact, hnk⟩
          exact (inv.trailingSilent hen (by omega) hsil) hdl
      · rintro ⟨j, hact, hnk⟩
        exact ⟨j, hact, fun m hjm hk =>
          hnk m hjm (killAt_of_firedKill hmono hk)⟩
    | some d =>
      obtain ⟨hen, mB, hmB, hsilB, hdB, hmaxB, hallB⟩ := inv.pendingShape d hdl
      by_cases hdue : d ≤ lastTime samples
      · have hfd : (finalDetect cfg samples).speakersEnabled = false := by
          simp only [finalDetect, flushTimers, hdl, hdue, if_true, fireRelease]
        rw [hfd]
        simp only [Bool.false_eq_true, false_iff]
        rintro ⟨j, hact, hnk⟩
        have hkB : KillAt cfg samples (lastTime samples) mB :=
          ⟨hmB, hsilB, by rw [← hdB]; exact hdue,
           fun u h1 h2 h3 => (hallB u h1 h2).1⟩
        have habj := activationAt_above hact
        have hjlt : j < mB := by
          by_contra hge
          push_neg at hge
          rcases Nat.eq_or_lt_of_le hge with he | hlt2
          · rw [← he] at habj
            exact ((not_aboveAt_iff _ _ _).mpr hsilB) habj
          · obtain ⟨hjn, -⟩ := hact
            exact ((not_aboveAt_iff _ _ _).mpr ((hallB j hlt2 hjn).1)) habj
        exact hnk mB hjlt hkB
      · have hfd : (finalDetect cfg samples).speakersEnabled =
            (runDetect cfg samples).speakersEnabled := by
          simp only [finalDetect, flushTimers, hdl, hdue, if_false]
        rw [hfd, inv.activeIff]
        constructor
        · rintro ⟨j, hact, hnk⟩
          refine ⟨j, hact, fun m hjm hk => ?_⟩
          by_cases hm1 : m < samples.length - 1
          · exact hnk m hjm (firedKill_of_killAt_lt hk hm1)
          · obtain ⟨hm, hsil, hdlm, hall⟩ := hk
            have hme : m = samples.length - 1 := by omega
            subst hme
            have h2 : timeAt samples mB ≤ timeAt samples (samples.length - 1) :=
              mono_le_of_pairwise hmono (by omega) (by omega)
            rw [hdB, deadlineOf] at hdue
            rw [deadlineOf, lastTime] at hdlm
            rw [lastTime] at hdue
            omega
        · rintro ⟨j, hact, hnk⟩
          exact ⟨j, hact, fun m hjm hk =>
            hnk m hjm (killAt_of_firedKill hmono hk)⟩

theorem processLevel_silent_resets (cfg : DetectConfig) (t level : Nat)
    (s : DetectState) (h : level ≤ cfg.audioThreshold) :
    (processLevel cfg t level s).sustainedStart = none := by
  have hc : ¬ cfg.audioThreshold < level := by omega
  by_cases hcd : s.audioDetected = true ∧ s.speakersEnabled = true ∧
      s.disableDeadline = none <;>
    simp [processLevel, hc, hcd]

instance (a b : Sample) : Decidable (timeLT a b) :=
  inferInstanceAs (Decidable (a.time < b.time))

/-- Claim C1: over every sequence of level samples processed while
capturing (samples at strictly increasing wall-clock times), the
activation machine ends with `speakersEnabled = true` exactly when some
contiguous run of samples, each strictly above `audioThreshold`, has
lasted at least `sustainDuration`, and no later contiguous run of samples
at or below the threshold has lasted at least `disableDelay`; moreover a
single sample at or below the threshold always resets the in-progress
sustain window to nothing. -/
theorem activation_machine_iff (cfg : DetectConfig) (samples : List Sample)
    (hmono : samples.Pairwise timeLT) :
    ((finalDetect cfg samples).speakersEnabled = true ↔ ActiveSpec cfg samples) ∧
    (∀ t level s, level ≤ cfg.audioThreshold →
      (processLevel cfg t level s).sustainedStart = none) :=
  ⟨finalDetect_iff_activeSpec cfg samples hmono,
   fun t level s h => processLevel_silent_resets cfg t level s h⟩

/-- The specification's Scenario A: threshold 5, sustain 1000 ms, samples
of level 6 every 250 ms spanning 1000 ms. -/
def scenarioConfig : DetectConfig := ⟨5, 1000, 3000⟩

/-- The sample trace of Scenario A. -/
def scenarioSamples : List Sample :=
  [⟨1000, 6⟩, ⟨1250, 6⟩, ⟨1500, 6⟩, ⟨1750, 6⟩, ⟨2000, 6⟩]

/-- Witness for claim C1 at the Scenario A trace. -/
theorem activation_machine_iff_witness :
    scenarioSamples.Pairwise timeLT ∧
    ((finalDetect scenarioConfig scenarioSamples).speakersEnabled = true ↔
      ActiveSpec scenarioConfig scenarioSamples) :=
  ⟨by decide, (activation_machine_iff scenarioConfig scenarioSamples (by decide)).1⟩

end AlgoApp
